import Mathlib

/-!
Verification development for the RecWell badminton calendar scraper.

The definitions below are a shallow embedding of the Python sources
`scripts/recwell_badminton_sync.py` and `scripts/recwell_badminton_sync_feed.py`:
the time-expression resolver, the day resolver, the event-time construction with
its midnight roll, the window filter, the reconciliation engine (`sync`), the
site-gathering control flow, the uid digest, and the (mis-escaped) time-range
regular expression of `parse_slots_v2`.  Python `datetime` values are embedded
as proleptic-Gregorian ordinals (days, or minutes for full timestamps); Python
dicts are embedded as association lists with insert-or-replace semantics;
raised exceptions of fallible steps are embedded as `Option`/`Except`.
-/

/-! ## String utilities (embedding of the Python `str` operations used) -/

/-- Embeds Python `str.lower()` (the inputs of interest are ASCII). -/
def lowerStr (s : String) : String :=
  String.mk (s.data.map Char.toLower)

/-- Embeds Python `str.replace(".", "")`. -/
def stripDots (s : String) : String :=
  String.mk (s.data.filter (fun c => c != '.'))

/-- Embeds Python `str.rstrip(".")`. -/
def rstripDots (s : String) : String :=
  String.mk ((s.data.reverse.dropWhile (fun c => c == '.')).reverse)

/-- Embeds Python `str.isdigit()` for ASCII strings. -/
def isDigitStr (s : String) : Bool :=
  !s.data.isEmpty && s.data.all (fun c => c.isDigit)

/-- Numeric value of a digit string, embedding Python `int(...)` on the
digit-only tokens delivered by the regular expressions. -/
def digitsVal (l : List Char) : Nat :=
  l.foldl (fun a c => a * 10 + (c.toNat - '0'.toNat)) 0

/-- Embeds Python `int(s)`: succeeds exactly on (nonempty) digit strings from
the regex token domain; a `ValueError` is embedded as `none`. -/
def toNatQ (s : String) : Option Nat :=
  if isDigitStr s then some (digitsVal s.data) else none

/-- Embeds Python `":" in val`. -/
def hasColon (s : String) : Bool :=
  s.data.contains ':'

/-- Embeds Python `str.split(":")`. -/
def splitColon : List Char → List (List Char)
  | [] => [[]]
  | c :: t =>
    let r := splitColon t
    if c = ':' then [] :: r
    else
      match r with
      | h :: t2 => (c :: h) :: t2
      | [] => [[c]]

/-- First-match association-list lookup, embedding Python dict indexing /
`dict.get` on the string-keyed dicts of the scripts. -/
def alookup {α : Type} (k : String) : List (String × α) → Option α
  | [] => none
  | p :: t => if p.1 = k then some p.2 else alookup k t

/-! ## Time Expression Resolver

Embedding of `to_24h` / `parse_time_word` from
`recwell_badminton_sync_feed.py` (lines 78-108) and of the plain `to_24h` of
`parse_slots` in `recwell_badminton_sync.py` (lines 75-82). -/

/-- Embeds `parse_time_word` (feed script): `"noon"` and `"midnight"` anchors,
case-insensitively, with the meridiem they carry. -/
def parse_time_word (w : String) : Option (Nat × Nat × String) :=
  if lowerStr w = "noon" then some (12, 0, "pm")
  else if lowerStr w = "midnight" then some (0, 0, "am")
  else none

/-- Embeds `(ampm_hint or "").replace(".","").lower()`. -/
def normHint (h : Option String) : String :=
  lowerStr (stripDots (h.getD ""))

/-- Embeds the meridiem adjustment of `to_24h`: add 12 for a "pm" hint when
the hour is below 12, reset hour 12 to 0 for an "am" hint, in that order. -/
def applyAmpm (a : String) (h : Nat) : Nat :=
  let h1 := if (a = "pm" ∨ a = "p m") ∧ h < 12 then h + 12 else h
  if (a = "am" ∨ a = "a m") ∧ h1 = 12 then 0 else h1

/-- Embeds the numeric branch of the feed `to_24h`: split `H:MM` on the colon,
or take `H` with minutes 0. -/
def parseClock (v : String) : Option (Nat × Nat) :=
  if hasColon v then
    match splitColon v.data with
    | [a, b] =>
      match toNatQ (String.mk a), toNatQ (String.mk b) with
      | some x, some y => some (x, y)
      | _, _ => none
    | _ => none
  else (toNatQ v).map (fun n => (n, 0))

/-- Embeds `to_24h` of `recwell_badminton_sync_feed.py` (lines 94-108): word
anchors first, otherwise numeric parse followed by the meridiem adjustment. -/
def to_24h (val : String) (hint : Option String) : Option (Nat × Nat) :=
  match parse_time_word val with
  | some (h, m, _) => some (h, m)
  | none => (parseClock val).map (fun p => (applyAmpm (normHint hint) p.1, p.2))

/-- Embeds the `to_24h` helper of `parse_slots` in `recwell_badminton_sync.py`
(lines 75-82): pad `":00"` when no colon, split, adjust by the hint. -/
def to_24h_v1 (val : String) (hint : Option String) : Option (Nat × Nat) :=
  let v := if hasColon val then val else val ++ ":00"
  match splitColon v.data with
  | [a, b] =>
    match toNatQ (String.mk a), toNatQ (String.mk b) with
    | some hh, some mm => some (applyAmpm (normHint hint) hh, mm)
    | _, _ => none
  | _ => none

/-- Embeds the meridiem propagation of `parse_slots` / `parse_slots_v2`
(`if not e_ampm and s_ampm: e_ampm = s_ampm`): returns the pair of hints
(start hint, end hint) actually used for conversion. -/
def sync_meridiem_propagate (samp eamp : Option String) :
    Option String × Option String :=
  (samp, if eamp.isNone && samp.isSome then samp else eamp)

/-- Embeds the range resolution of `parse_text_feed` (lines 147-152): the
single trailing meridiem group is passed as the hint for both tokens. -/
def feed_resolve_range (s e : String) (ampm : Option String) :
    Option (Nat × Nat) × Option (Nat × Nat) :=
  (to_24h s ampm, to_24h e ampm)

/-! ## Dates

Python `datetime.date` values are embedded as (year, month, day) triples with
the proleptic-Gregorian ordinal of `date.toordinal()` (0001-01-01 = 1). -/

/-- Gregorian leap-year test. -/
def isLeap (y : Nat) : Bool :=
  decide ((y % 4 = 0 ∧ y % 100 ≠ 0) ∨ y % 400 = 0)

/-- Length of month `m` in year `y`. -/
def daysInMonth (y m : Nat) : Nat :=
  if m = 2 then (if isLeap y then 29 else 28)
  else if m = 4 ∨ m = 6 ∨ m = 9 ∨ m = 11 then 30
  else 31

/-- Days strictly before year `y` since the epoch. -/
def daysBeforeYear (y : Nat) : Nat :=
  (y - 1) * 365 + (y - 1) / 4 - (y - 1) / 100 + (y - 1) / 400

/-- Days of year `y` strictly before month `m`. -/
def daysBeforeMonth (y m : Nat) : Nat :=
  ((List.range (m - 1)).map (fun i => daysInMonth y (i + 1))).sum

structure Date where
  year : Nat
  month : Nat
  day : Nat
deriving DecidableEq, Repr

/-- `date.toordinal()`. -/
def Date.ord (d : Date) : Nat :=
  daysBeforeYear d.year + daysBeforeMonth d.year d.month + d.day

/-- The validity check of the Python `datetime` constructor (`MINYEAR = 1`,
`MAXYEAR = 9999`, day within the month). -/
def validDate (y m d : Nat) : Bool :=
  decide (1 ≤ y ∧ y ≤ 9999 ∧ 1 ≤ m ∧ m ≤ 12 ∧ 1 ≤ d ∧ d ≤ daysInMonth y m)

/-- Embeds `datetime(year, month, day)`: a raised `ValueError` is `none`. -/
def mkDate (y m d : Nat) : Option Date :=
  if validDate y m d then some ⟨y, m, d⟩ else none

/-- Weekday of an ordinal, `date.weekday()` convention (0 = Monday): ordinal 1
(0001-01-01) is a Monday. -/
def weekdayOfOrd (o : Nat) : Nat :=
  (o + 6) % 7

/-! ## Day Resolver -/

/-- The `%b` month-abbreviation table of `strptime` (case-insensitive). -/
def month_abbrs : List (String × Nat) :=
  [("jan", 1), ("feb", 2), ("mar", 3), ("apr", 4), ("may", 5), ("jun", 6),
   ("jul", 7), ("aug", 8), ("sep", 9), ("oct", 10), ("nov", 11), ("dec", 12)]

/-- Embeds `datetime.strptime(f"{mon} {day} {year}", "%b %d %Y").date()` for a
month-name token: `strptime` matches month abbreviations case-insensitively and
raises (here `none`) otherwise. -/
def monthAbbrToInt (s : String) : Option Nat :=
  alookup (lowerStr s) month_abbrs

/-- The month-name table of `month_to_int` in the feed script (lines 69-76). -/
def month_to_int_names : List (String × Nat) :=
  [("jan", 1), ("january", 1), ("feb", 2), ("february", 2), ("mar", 3),
   ("march", 3), ("apr", 4), ("april", 4), ("may", 5), ("jun", 6), ("june", 6),
   ("jul", 7), ("july", 7), ("aug", 8), ("august", 8), ("sep", 9), ("sept", 9),
   ("september", 9), ("oct", 10), ("october", 10), ("nov", 11),
   ("november", 11), ("dec", 12), ("december", 12)]

/-- Embeds `month_to_int` of the feed script: lower-case, strip trailing dots,
table lookup (`KeyError` embedded as `none`; the feed regex only delivers keys
of the table). -/
def month_to_int (s : String) : Option Nat :=
  alookup (rstripDots (lowerStr s)) month_to_int_names

/-- Embeds the date resolution of `parse_text_feed` (lines 119-127): build the
date in the reference year, re-build it in the next year when it lies more than
7 days before `today`; a constructor error skips the block (`none`). -/
def feed_resolve_date (today : Date) (mon day : Nat) : Option Date :=
  match mkDate today.year mon day with
  | none => none
  | some d => if d.ord + 7 < today.ord then mkDate (today.year + 1) mon day
              else some d

/-- Embeds the explicit month/day resolution of `parse_slots` (lines 96-102):
numeric month via `datetime(year, int(mon), day)`, otherwise
`strptime "%b %d %Y"`; any error yields `none`.  The reference year is always
used - this path has no year roll. -/
def sync_resolve_explicit (today : Date) (mon : String) (day : Nat) :
    Option Date :=
  if isDigitStr mon then mkDate today.year (digitsVal mon.data) day
  else
    match monthAbbrToInt mon with
    | some mi => mkDate today.year mi day
    | none => none

/-- Embeds the weekday scan loop of `parse_slots` (lines 116-120): up to 7
probes starting at `ptr`, returning the first ordinal whose weekday matches. -/
def scan_weekday : Nat → Nat → Nat → Option Nat
  | 0, _, _ => none
  | n + 1, target, ptr =>
    if weekdayOfOrd ptr = target then some ptr
    else scan_weekday n target (ptr + 1)

/-- The weekday resolution of `parse_slots`: scan the 7 days from `today`. -/
def resolve_weekday (todayOrd target : Nat) : Option Nat :=
  scan_weekday 7 target todayOrd

/-- Embeds the per-line date choice of `parse_slots` (lines 113-121): the
explicit header date, else the weekday scan seeded from the header (or, when
the header had none, from the line), else no date (the line is discarded). -/
def sync_line_date (explicit : Option Date) (dowHeader dowLine : Option Nat)
    (today : Date) : Option Nat :=
  match explicit with
  | some d => some d.ord
  | none =>
    match dowHeader.orElse (fun _ => dowLine) with
    | some t => resolve_weekday today.ord t
    | none => none

/-! ## Event time construction (midnight roll)

Timestamps are embedded as minutes: `ordinal * 1440 + hour * 60 + minute`. -/

/-- Embeds `datetime(y, m, d, hh, mm, tzinfo=tz)` on a resolved date ordinal:
the constructor raises unless `hh < 24` and `mm < 60`. -/
def mkDT (dateOrd h m : Nat) : Option Nat :=
  if h < 24 ∧ m < 60 then some (dateOrd * 1440 + h * 60 + m) else none

/-- Embeds the event-time construction shared by all parsers
(`recwell_badminton_sync.py` lines 131-133, feed lines 154-157): build start
and end on the same date and roll the end forward one day when it is at or
before the start. -/
def build_event_times (dateOrd sh sm eh em : Nat) : Option (Nat × Nat) :=
  match mkDT dateOrd sh sm, mkDT dateOrd eh em with
  | some s, some e0 => some (s, if e0 ≤ s then e0 + 1440 else e0)
  | _, _ => none

/-! ## Window filter -/

/-- Embeds `today <= event_date <= window_end` of `parse_slots_v2`
(lines 266-269) with `window_end = today + timedelta(days=6)`. -/
def v2_keep_date (todayOrd dOrd : Nat) : Bool :=
  decide (todayOrd ≤ dOrd ∧ dOrd ≤ todayOrd + 6)

/-- Embeds `today <= start_dt.date() <= end_day` of `parse_text_feed`
(lines 159-160) with `end_day = today + timedelta(days=WINDOW_DAYS)`,
`WINDOW_DAYS = 6`. -/
def feed_keep_date (todayOrd dOrd : Nat) : Bool :=
  decide (todayOrd ≤ dOrd ∧ dOrd ≤ todayOrd + 6)

/-! ## Regular expressions

A small regex syntax with a language semantics, used to embed the concrete
time-range pattern of `parse_slots_v2` (`recwell_badminton_sync.py` lines
155-162).  That pattern is built from r-strings containing doubled
backslashes, so `\\d` denotes a literal backslash followed by the letter `d`
and `\\s*` a literal backslash followed by repeated `s` - the embedding below
reproduces those tokens exactly. -/

inductive RE where
  | emp : RE
  | eps : RE
  | cls : List Char → RE
  | dot : RE
  | cat : RE → RE → RE
  | alt : RE → RE → RE
  | star : RE → RE
deriving DecidableEq, Repr

/-- The words of a regular expression. -/
inductive Lang : RE → List Char → Prop where
  | eps : Lang RE.eps []
  | cls {c : Char} {cs : List Char} : c ∈ cs → Lang (RE.cls cs) [c]
  | dot {c : Char} : Lang RE.dot [c]
  | catm {a b : RE} {u v : List Char} :
      Lang a u → Lang b v → Lang (RE.cat a b) (u ++ v)
  | altl {a b : RE} {u : List Char} : Lang a u → Lang (RE.alt a b) u
  | altr {a b : RE} {u : List Char} : Lang b u → Lang (RE.alt a b) u
  | starNil {a : RE} : Lang (RE.star a) []
  | starCons {a : RE} {u v : List Char} :
      Lang a u → Lang (RE.star a) v → Lang (RE.star a) (u ++ v)

/-- `mustContain c r = true` certifies that every word of `r` contains `c`. -/
def mustContain (c : Char) : RE → Bool
  | RE.emp => true
  | RE.eps => false
  | RE.cls cs => cs.all (fun x => x == c)
  | RE.dot => false
  | RE.cat a b => mustContain c a || mustContain c b
  | RE.alt a b => mustContain c a && mustContain c b
  | RE.star _ => false

/-- `re.search`: some (possibly empty-bordered) slice of the subject is in the
language of the pattern. -/
def SearchMatches (r : RE) (s : List Char) : Prop :=
  ∃ p m q, s = p ++ m ++ q ∧ Lang r m

/-- A single character, case-insensitively (the patterns use `re.I`). -/
def ichr (c : Char) : RE :=
  RE.cls [c.toLower, c.toUpper]

/-- A literal string, case-insensitively. -/
def istr (s : String) : RE :=
  s.data.foldr (fun c r => RE.cat (ichr c) r) RE.eps

/-- Shorthand for `r?`. -/
def ropt (r : RE) : RE :=
  RE.alt r RE.eps

/-- The literal backslash that the doubled `\\` escapes denote. -/
def bslashRE : RE :=
  RE.cls ['\\']

/-- The mis-escaped `\\d{1,2}(:\\d{2})?` alternative of the `s`/`e` groups: a
literal backslash, one or two letters `d`, optionally a colon, a backslash and
two letters `d`. -/
def v2NumTok : RE :=
  RE.cat bslashRE (RE.cat (ichr 'd') (RE.cat (ropt (ichr 'd'))
    (ropt (RE.cat (RE.cls [':']) (RE.cat bslashRE (RE.cat (ichr 'd') (ichr 'd')))))))

/-- The `s`/`e` group: the numeric alternative, or `Noon`, or `Midnight`. -/
def v2TimeTok : RE :=
  RE.alt v2NumTok (RE.alt (istr "Noon") (istr "Midnight"))

/-- The mis-escaped `a\\.?m\\.?` alternative: `a`, backslash, optional
any-char, `m`, backslash, optional any-char (same with `p`). -/
def v2AmpmWord (c : Char) : RE :=
  RE.cat (ichr c) (RE.cat bslashRE (RE.cat (ropt RE.dot)
    (RE.cat (ichr 'm') (RE.cat bslashRE (ropt RE.dot)))))

/-- The `samp`/`eamp` group body. -/
def v2Ampm : RE :=
  RE.alt (v2AmpmWord 'a') (RE.alt (v2AmpmWord 'p') (RE.alt (istr "am") (istr "pm")))

/-- The separator `(?:-|–|—|to)`. -/
def v2Sep : RE :=
  RE.alt (RE.cls ['-']) (RE.alt (RE.cls ['–']) (RE.alt (RE.cls ['—']) (istr "to")))

/-- The mis-escaped `\\s*`: a mandatory literal backslash then repeated `s`. -/
def v2Gap : RE :=
  RE.cat bslashRE (RE.star (ichr 's'))

/-- The whole `time_pat` of `parse_slots_v2`. -/
def v2_time_pat : RE :=
  RE.cat v2TimeTok (RE.cat v2Gap (RE.cat (ropt v2Ampm) (RE.cat v2Gap
    (RE.cat v2Sep (RE.cat v2Gap (RE.cat v2TimeTok (RE.cat v2Gap (ropt v2Ampm))))))))

/-! ## Reconciliation engine

Embedding of `sync` (`recwell_badminton_sync.py` lines 470-504, identically
`recwell_badminton_sync_feed.py` lines 193-229).  Python dicts are association
lists built by insert-or-replace; the listing returned by the event store is a
list of entries carrying a backend id and the private annotation map. -/

/-- One desired event as produced by the parsers (`start`/`end` already
rendered as the ISO strings used by `to_gcal`). -/
structure Slot where
  title : String
  location : String
  startIso : String
  endIso : String
  uid : String
deriving DecidableEq, Repr

/-- One entry of the event-store listing: backend id plus the
`extendedProperties.private` map (absent map embedded as `[]`). -/
structure GEvent where
  id : String
  priv : List (String × String)
deriving DecidableEq, Repr

/-- The request body built by `to_gcal`. -/
structure GcalBody where
  summary : String
  location : String
  startIso : String
  endIso : String
  descr : String
  priv : List (String × String)
deriving DecidableEq, Repr

/-- The fixed source tag of the private annotation. -/
def SOURCE_TAG : String := "recwell-badminton"

/-- Embeds `to_gcal` of `recwell_badminton_sync.py` (lines 460-468). -/
def to_gcal (s : Slot) : GcalBody :=
  { summary := s.title
    location := s.location
    startIso := s.startIso
    endIso := s.endIso
    descr := "Source: RecWell Badminton (auto-sync)"
    priv := [("source", SOURCE_TAG), ("recwell_uid", s.uid)] }

/-- The store mutations issued by `sync`, in issue order. -/
inductive Op where
  | insert : GcalBody → Op
  | update : String → GcalBody → Op
  | delete : String → Op
deriving DecidableEq, Repr

/-- Python dict key-membership. -/
def containsKey {α : Type} (m : List (String × α)) (k : String) : Bool :=
  (alookup k m).isSome

/-- Python dict assignment `m[k] = v`: replace the value in place when the key
exists, append otherwise. -/
def dinsert {α : Type} (m : List (String × α)) (k : String) (v : α) :
    List (String × α) :=
  if containsKey m k then m.map (fun p => if p.1 = k then (k, v) else p)
  else m ++ [(k, v)]

/-- An entry is recognized as managed: the private annotation carries the
fixed source tag and a `recwell_uid` key (`sync` lines 487-491). -/
def isManaged (ev : GEvent) : Prop :=
  alookup "source" ev.priv = some SOURCE_TAG ∧
    (alookup "recwell_uid" ev.priv).isSome = true

instance (ev : GEvent) : Decidable (isManaged ev) := by
  unfold isManaged; infer_instance

/-- One step of the `existing_by_uid` construction loop of `sync` (lines
488-491): record the entry under its `recwell_uid` exactly when the private
annotation carries the source tag and a `recwell_uid` key. -/
def existingStep (m : List (String × GEvent)) (ev : GEvent) :
    List (String × GEvent) :=
  match alookup "source" ev.priv, alookup "recwell_uid" ev.priv with
  | some src, some u => if src = SOURCE_TAG then dinsert m u ev else m
  | _, _ => m

/-- Embeds the `existing_by_uid` construction of `sync` (lines 487-491). -/
def existingByUid (events : List GEvent) : List (String × GEvent) :=
  events.foldl existingStep []

/-- One step of the `desired_by_uid` dict comprehension (line 493). -/
def desiredStep (m : List (String × Slot)) (s : Slot) : List (String × Slot) :=
  dinsert m s.uid s

/-- Embeds the `desired_by_uid` construction of `sync` (line 493). -/
def desiredByUid (slots : List Slot) : List (String × Slot) :=
  slots.foldl desiredStep []

/-- Embeds the mutation phase of `sync` (lines 495-504): for every desired
uid, update (addressed by the existing entry's backend id) when the uid is
managed-existing, insert otherwise; then delete every managed-existing entry
whose uid is no longer desired. -/
def sync_ops (events : List GEvent) (slots : List Slot) : List Op :=
  ((desiredByUid slots).map (fun p =>
    match alookup p.1 (existingByUid events) with
    | some ev => Op.update ev.id (to_gcal p.2)
    | none => Op.insert (to_gcal p.2)))
  ++ (existingByUid events).filterMap (fun q =>
    match alookup q.1 (desiredByUid slots) with
    | some _ => none
    | none => some (Op.delete q.2.id))

/-- The `recwell_uid` a request body carries. -/
def bodyUid (b : GcalBody) : Option String :=
  alookup "recwell_uid" b.priv

/-- The operation is an insert for the given uid. -/
def isInsertForUid (u : String) : Op → Bool
  | Op.insert b => bodyUid b == some u
  | _ => false

/-- The operation is an update for the given uid addressed at the given
backend id. -/
def isUpdateAt (u i : String) : Op → Bool
  | Op.update j b => j == i && bodyUid b == some u
  | _ => false

/-- The operation is a delete addressed at the given backend id. -/
def isDeleteAt (i : String) : Op → Bool
  | Op.delete j => j == i
  | _ => false

/-- The operation is addressed at the given backend id (update or delete). -/
def targetsId (i : String) : Op → Bool
  | Op.insert _ => false
  | Op.update j _ => j == i
  | Op.delete j => j == i

/-- Any insert. -/
def isInsertOp : Op → Bool
  | Op.insert _ => true
  | _ => false

/-- Any update. -/
def isUpdateOp : Op → Bool
  | Op.update _ _ => true
  | _ => false

/-- Any delete. -/
def isDeleteOp : Op → Bool
  | Op.delete _ => true
  | _ => false

/-- A desired slot with the given uid (concrete scenario data). -/
def exSlot (u : String) : Slot :=
  { title := "Badminton (RecWell)"
    location := "UC Berkeley RecWell"
    startIso := "2025-11-09T12:00:00-08:00"
    endIso := "2025-11-09T16:00:00-08:00"
    uid := u }

/-- A managed listing entry with the given backend id and uid. -/
def exManaged (i u : String) : GEvent :=
  { id := i, priv := [("source", SOURCE_TAG), ("recwell_uid", u)] }

/-- The end-to-end scenario listing: 2 managed entries, uids `a` and `b`. -/
def scenarioEvents : List GEvent :=
  [exManaged "id1" "a", exManaged "id2" "b"]

/-- The end-to-end scenario desired set: 3 events, uids `a`, `c`, `d` (uid `a`
shared with the listing, `b` stale, `c` and `d` new). -/
def scenarioSlots : List Slot :=
  [exSlot "a", exSlot "c", exSlot "d"]

/-- Invariant of the entries of `existingByUid`: keyed by their own
`recwell_uid`, tagged with the source tag, and drawn from the listing. -/
def managedEntry (full : List GEvent) (p : String × GEvent) : Prop :=
  alookup "source" p.2.priv = some SOURCE_TAG ∧
    alookup "recwell_uid" p.2.priv = some p.1 ∧ p.2 ∈ full

/-- A listing entry that is not recognized as managed (no annotation at all). -/
def strayEvent : GEvent :=
  { id := "idS", priv := [("color", "9")] }

/-- Listing used to instantiate the frame-effect theorem: one stray entry
among two managed ones. -/
def c2Events : List GEvent :=
  [exManaged "id1" "a", strayEvent, exManaged "id2" "b"]

/-- A concrete fetch oracle: the primary page succeeds, everything else
raises. -/
def c10fetch : String → Except String String :=
  fun u => if u = "primary" then Except.ok "HTML" else Except.error "down"

/-- A concrete stand-in for `parse_slots_v2` results. -/
def c10parse : String → List Slot :=
  fun h => [exSlot h, exSlot h]

/-- A concrete stand-in for `parse_livewhale_widget` results. -/
def c10parseW : String → List Slot :=
  fun _ => [exSlot "w"]

/-- A concrete stand-in for `discover_related_pages`. -/
def c10disc : String → String → List String :=
  fun _ _ => ["rel1", "rel2"]

/-! ## Site gathering (`gather_slots_from_site`, lines 432-458)

The fetch collaborator is an oracle `url ↦ Except error text`; a raised
exception is `Except.error`.  The two parsers and the related-page discovery
are pure in-repository functions of the fetched text and are abstracted as
function parameters, since only the exception routing is at issue here. -/

/-- The fixed widget URL constant. -/
def WIDGET_URL : String :=
  "https://events.berkeley.edu/live/widget/15/tag/Open%20Rec%20Badminton"

/-- Embeds the final de-duplication of `gather_slots_from_site` (lines
451-457): keep the first slot per uid, slots with an empty (falsy) uid are
always kept and never recorded as seen. -/
def gather_dedupe (l : List Slot) : List Slot :=
  (l.foldl (fun acc s =>
    if s.uid = "" ∨ acc.1.contains s.uid = false then
      ((if s.uid = "" then acc.1 else acc.1 ++ [s.uid]), acc.2 ++ [s])
    else acc) (([] : List String), ([] : List Slot))).2

/-- Embeds `gather_slots_from_site`: fetch the start page (failure
propagates), parse it with `parse_slots_v2`, then best-effort extend with the
widget parse and the related-page parses, each wrapped in exception
suppression; finally de-duplicate by uid. -/
def gather_slots_from_site (fetch : String → Except String String)
    (parseV2 parseWidget : String → List Slot)
    (discover : String → String → List String)
    (start_url : String) : Except String (List Slot) :=
  match fetch start_url with
  | Except.error e => Except.error e
  | Except.ok start_html =>
    let out := parseV2 start_html
    let out := match fetch WIDGET_URL with
      | Except.ok wh => out ++ parseWidget wh
      | Except.error _ => out
    let out := (discover start_url start_html).foldl (fun acc url =>
      match fetch url with
      | Except.ok h => acc ++ parseV2 h
      | Except.error _ => acc) out
    Except.ok (gather_dedupe out)

/-! ## The uid digest

`uid = hashlib.sha1(uid_src.encode()).hexdigest()[:16]` with
`uid_src = f"{start}|{end}|{loc}|{title}"` (lines 135-136, 284-285, feed lines
165-166).  SHA-1 is embedded bit-faithfully over byte lists; 32-bit words are
`Nat` reduced modulo `2 ^ 32`. -/

/-- Reduce to a 32-bit word. -/
def w32 (n : Nat) : Nat :=
  n % 4294967296

/-- 32-bit left rotation. -/
def rotl (k n : Nat) : Nat :=
  w32 ((n <<< k) ||| (n >>> (32 - k)))

/-- UTF-8 encoding of one character (`str.encode()`). -/
def utf8Bytes (c : Char) : List Nat :=
  let n := c.toNat
  if n < 128 then [n]
  else if n < 2048 then [192 + n / 64, 128 + n % 64]
  else if n < 65536 then [224 + n / 4096, 128 + n / 64 % 64, 128 + n % 64]
  else [240 + n / 262144, 128 + n / 4096 % 64, 128 + n / 64 % 64, 128 + n % 64]

/-- UTF-8 encoding of a string. -/
def strBytes (s : String) : List Nat :=
  (s.data.map utf8Bytes).flatten

/-- Big-endian 8-byte rendering of the bit length. -/
def be64 (n : Nat) : List Nat :=
  [n / 72057594037927936 % 256, n / 281474976710656 % 256,
   n / 1099511627776 % 256, n / 4294967296 % 256, n / 16777216 % 256,
   n / 65536 % 256, n / 256 % 256, n % 256]

/-- SHA-1 message padding: `0x80`, zeros to 56 mod 64, 64-bit bit length. -/
def sha1Pad (msg : List Nat) : List Nat :=
  let padZeros := (56 + 64 - (msg.length + 1) % 64) % 64
  msg ++ [128] ++ List.replicate padZeros 0 ++ be64 (8 * msg.length)

/-- Split into 64-byte chunks. -/
def chunks64 (l : List Nat) : List (List Nat) :=
  if _hne : l = [] then [] else l.take 64 :: chunks64 (l.drop 64)
termination_by l.length
decreasing_by
  simp only [List.length_drop]
  have hlen : l.length ≠ 0 := fun hz => _hne (List.length_eq_zero.mp hz)
  omega

/-- The 16 big-endian 32-bit words of a 64-byte chunk. -/
def wordsOfChunk (c : List Nat) : List Nat :=
  (List.range 16).map (fun i =>
    (c.getD (4 * i) 0) * 16777216 + (c.getD (4 * i + 1) 0) * 65536 +
    (c.getD (4 * i + 2) 0) * 256 + c.getD (4 * i + 3) 0)

/-- Extend 16 words to the 80-word schedule. -/
def sha1Extend (ws : List Nat) : List Nat :=
  (List.range 64).foldl (fun acc _ =>
    acc ++ [rotl 1 ((acc.getD (acc.length - 3) 0) ^^^
      (acc.getD (acc.length - 8) 0) ^^^ (acc.getD (acc.length - 14) 0) ^^^
      (acc.getD (acc.length - 16) 0))]) ws

/-- The SHA-1 round function. -/
def sha1F (i b c d : Nat) : Nat :=
  if i < 20 then (b &&& c) ||| ((b ^^^ 4294967295) &&& d)
  else if i < 40 then b ^^^ c ^^^ d
  else if i < 60 then (b &&& c) ||| (b &&& d) ||| (c &&& d)
  else b ^^^ c ^^^ d

/-- The SHA-1 round constants. -/
def sha1K (i : Nat) : Nat :=
  if i < 20 then 1518500249
  else if i < 40 then 1859775393
  else if i < 60 then 2400959708
  else 3395469782

/-- Process one 64-byte chunk. -/
def sha1Chunk (hs : Nat × Nat × Nat × Nat × Nat) (chunk : List Nat) :
    Nat × Nat × Nat × Nat × Nat :=
  let ws := sha1Extend (wordsOfChunk chunk)
  match hs with
  | (h0, h1, h2, h3, h4) =>
    match (List.range 80).foldl (fun st i =>
      match st with
      | (a, b, c, d, e) =>
        (w32 (rotl 5 a + sha1F i b c d + e + sha1K i + ws.getD i 0),
         a, rotl 30 b, c, d)) (h0, h1, h2, h3, h4) with
    | (a, b, c, d, e) =>
      (w32 (h0 + a), w32 (h1 + b), w32 (h2 + c), w32 (h3 + d), w32 (h4 + e))

/-- SHA-1 of a byte list, as the five 32-bit state words. -/
def sha1 (msg : List Nat) : Nat × Nat × Nat × Nat × Nat :=
  (chunks64 (sha1Pad msg)).foldl sha1Chunk
    (1732584193, 4023233417, 2562383102, 271733878, 3285377520)

/-- One hexadecimal digit character. -/
def hexDigitChar (n : Nat) : Char :=
  ("0123456789abcdef".data).getD n '0'

/-- Eight hex characters of one 32-bit word. -/
def hex8 (n : Nat) : List Char :=
  [hexDigitChar (n / 268435456 % 16), hexDigitChar (n / 16777216 % 16),
   hexDigitChar (n / 1048576 % 16), hexDigitChar (n / 65536 % 16),
   hexDigitChar (n / 4096 % 16), hexDigitChar (n / 256 % 16),
   hexDigitChar (n / 16 % 16), hexDigitChar (n % 16)]

/-- `hashlib.sha1(...).hexdigest()` as a 40-character list. -/
def sha1HexChars (msg : List Nat) : List Char :=
  hex8 (sha1 msg).1 ++ hex8 (sha1 msg).2.1 ++ hex8 (sha1 msg).2.2.1 ++
    hex8 (sha1 msg).2.2.2.1 ++ hex8 (sha1 msg).2.2.2.2

/-- The `uid_src` join: the four fields separated by `|`, unescaped. -/
def mk_uid_src (startIso endIso loc title : String) : String :=
  startIso ++ "|" ++ endIso ++ "|" ++ loc ++ "|" ++ title

/-- `hexdigest()[:16]` of the UTF-8 bytes of a source string. -/
def uid_from_src (src : String) : String :=
  String.mk ((sha1HexChars (strBytes src)).take 16)

/-- The uid of a constructed Event, as computed at lines 135-136. -/
def uid_of (startIso endIso loc title : String) : String :=
  uid_from_src (mk_uid_src startIso endIso loc title)


/-! # Theorems -/

/-! ## Association-list and dict lemmas -/

theorem alookup_mem {α : Type} {k : String} {v : α} :
    ∀ {m : List (String × α)}, alookup k m = some v → (k, v) ∈ m := by
  intro m
  induction m with
  | nil => intro h; simp [alookup] at h
  | cons p t ih =>
    rcases p with ⟨a, b⟩
    intro h
    by_cases hp : a = k
    · subst hp
      simp [alookup] at h
      subst h
      exact List.mem_cons_self _ _
    · simp [alookup, hp] at h
      exact List.mem_cons_of_mem _ (ih h)

theorem alookup_eq_none_iff {α : Type} {k : String} :
    ∀ {m : List (String × α)}, alookup k m = none ↔ ∀ p ∈ m, p.1 ≠ k := by
  intro m
  induction m with
  | nil => simp [alookup]
  | cons p t ih =>
    rcases p with ⟨a, b⟩
    by_cases hp : a = k
    · simp [alookup, hp]
    · simp [alookup, hp, ih]

theorem alookup_of_mem_nodup {α : Type} :
    ∀ {m : List (String × α)}, (m.map Prod.fst).Nodup →
      ∀ {k : String} {v : α}, (k, v) ∈ m → alookup k m = some v := by
  intro m
  induction m with
  | nil => intro _ k v h; simp at h
  | cons p t ih =>
    intro hn k v hm
    rcases p with ⟨a, b⟩
    simp only [List.map_cons, List.nodup_cons] at hn
    rcases List.mem_cons.mp hm with h | h
    · injection h with h1 h2
      subst h1; subst h2
      simp [alookup]
    · have hk2 : k ∈ t.map Prod.fst := List.mem_map.mpr ⟨(k, v), h, rfl⟩
      by_cases hp : a = k
      · exact absurd (hp ▸ hk2) hn.1
      · simp only [alookup, if_neg hp]
        exact ih hn.2 h

theorem containsKey_false_iff {α : Type} {m : List (String × α)} {k : String} :
    containsKey m k = false ↔ alookup k m = none := by
  unfold containsKey
  cases alookup k m <;> simp

theorem containsKey_true_iff {α : Type} {m : List (String × α)} {k : String} :
    containsKey m k = true ↔ ∃ v, alookup k m = some v := by
  unfold containsKey
  cases alookup k m <;> simp

theorem mem_dinsert {α : Type} {m : List (String × α)} {k : String} {v : α}
    {p : String × α} (h : p ∈ dinsert m k v) : p ∈ m ∨ p = (k, v) := by
  unfold dinsert at h
  by_cases hc : containsKey m k = true
  · rw [if_pos hc] at h
    rcases List.mem_map.mp h with ⟨q, hq, hqe⟩
    subst hqe
    by_cases hqk : q.1 = k
    · right; rw [if_pos hqk]
    · left; rw [if_neg hqk]; exact hq
  · rw [if_neg hc] at h
    rcases List.mem_append.mp h with h | h
    · left; exact h
    · right; simpa using h

theorem keys_dinsert_nodup {α : Type} {m : List (String × α)} {k : String}
    {v : α} (h : (m.map Prod.fst).Nodup) :
    ((dinsert m k v).map Prod.fst).Nodup := by
  unfold dinsert
  by_cases hc : containsKey m k = true
  · rw [if_pos hc]
    have he : (m.map (fun p => if p.1 = k then (k, v) else p)).map Prod.fst
        = m.map Prod.fst := by
      rw [List.map_map]
      apply List.map_congr_left
      intro p _
      by_cases hp : p.1 = k
      · simp [hp]
      · simp [hp]
    rw [he]; exact h
  · rw [if_neg hc]
    rw [List.map_append]
    have hk : k ∉ m.map Prod.fst := by
      intro hmem
      rcases List.mem_map.mp hmem with ⟨q, hq, hqe⟩
      have hnone : alookup k m = none :=
        containsKey_false_iff.mp (by simpa using hc)
      exact (alookup_eq_none_iff.mp hnone q hq) hqe
    refine List.Nodup.append h (List.nodup_singleton _) ?_
    intro a ha hb
    simp at hb
    subst hb
    exact hk ha

/-! ## Invariants of the uid-keyed dicts built by `sync` -/

theorem desired_fold_prop (slots : List Slot) :
    ∀ init : List (String × Slot), (∀ p ∈ init, p.2.uid = p.1) →
      ∀ p ∈ slots.foldl desiredStep init, p.2.uid = p.1 := by
  induction slots with
  | nil => intro init h; simpa using h
  | cons s t ih =>
    intro init h p hp
    simp only [List.foldl_cons] at hp
    refine ih (desiredStep init s) ?_ p hp
    intro q hq
    unfold desiredStep at hq
    rcases mem_dinsert hq with h2 | h2
    · exact h q h2
    · rw [h2]

theorem desired_fold_nodup (slots : List Slot) :
    ∀ init : List (String × Slot), (init.map Prod.fst).Nodup →
      (((slots.foldl desiredStep init)).map Prod.fst).Nodup := by
  induction slots with
  | nil => intro init h; simpa using h
  | cons s t ih =>
    intro init h
    simp only [List.foldl_cons]
    exact ih (desiredStep init s) (keys_dinsert_nodup h)

theorem desiredByUid_prop (slots : List Slot) :
    ∀ p ∈ desiredByUid slots, p.2.uid = p.1 :=
  desired_fold_prop slots [] (by simp)

theorem desiredByUid_nodup (slots : List Slot) :
    ((desiredByUid slots).map Prod.fst).Nodup :=
  desired_fold_nodup slots [] (by simp)

theorem existing_fold_prop (full : List GEvent) :
    ∀ evs : List GEvent, (∀ e ∈ evs, e ∈ full) →
      ∀ init : List (String × GEvent), (∀ p ∈ init, managedEntry full p) →
        ∀ p ∈ evs.foldl existingStep init, managedEntry full p := by
  intro evs
  induction evs with
  | nil => intro _ init h; simpa using h
  | cons ev t ih =>
    intro hsub init hinit p hp
    simp only [List.foldl_cons] at hp
    refine ih (fun e he => hsub e (List.mem_cons_of_mem _ he))
      (existingStep init ev) ?_ p hp
    intro q hq
    unfold existingStep at hq
    rcases h1 : alookup "source" ev.priv with _ | src
    · rw [h1] at hq; exact hinit q hq
    · rw [h1] at hq
      rcases h2 : alookup "recwell_uid" ev.priv with _ | u
      · rw [h2] at hq; exact hinit q hq
      · rw [h2] at hq
        simp only at hq
        by_cases hsrc : src = SOURCE_TAG
        · rw [if_pos hsrc] at hq
          rcases mem_dinsert hq with h3 | h3
          · exact hinit q h3
          · rw [h3]
            refine ⟨?_, ?_, hsub ev (List.mem_cons_self _ _)⟩
            · rw [h1, hsrc]
            · exact h2
        · rw [if_neg hsrc] at hq
          exact hinit q hq

theorem existing_fold_nodup :
    ∀ evs : List GEvent, ∀ init : List (String × GEvent),
      (init.map Prod.fst).Nodup →
      (((evs.foldl existingStep init)).map Prod.fst).Nodup := by
  intro evs
  induction evs with
  | nil => intro init h; simpa using h
  | cons ev t ih =>
    intro init h
    simp only [List.foldl_cons]
    refine ih (existingStep init ev) ?_
    unfold existingStep
    rcases alookup "source" ev.priv with _ | src
    · exact h
    · rcases alookup "recwell_uid" ev.priv with _ | u
      · exact h
      · simp only
        by_cases hsrc : src = SOURCE_TAG
        · rw [if_pos hsrc]; exact keys_dinsert_nodup h
        · rw [if_neg hsrc]; exact h

theorem existingByUid_prop (events : List GEvent) :
    ∀ p ∈ existingByUid events, managedEntry events p :=
  existing_fold_prop events events (fun _ he => he) [] (by simp)

theorem existingByUid_nodup (events : List GEvent) :
    ((existingByUid events).map Prod.fst).Nodup :=
  existing_fold_nodup events [] (by simp)

/-! ## Counting lemmas -/

theorem countP_key_one {α : Type} {m : List (String × α)} {u : String}
    (hn : (m.map Prod.fst).Nodup) (hc : containsKey m u = true) :
    m.countP (fun q => q.1 == u) = 1 := by
  have hu : u ∈ m.map Prod.fst := by
    rcases containsKey_true_iff.mp hc with ⟨v, hv⟩
    exact List.mem_map.mpr ⟨(u, v), alookup_mem hv, rfl⟩
  have h1 : (m.map Prod.fst).count u = 1 := List.count_eq_one_of_mem hn hu
  simp only [List.count, List.countP_map] at h1
  exact h1

theorem countP_key_zero {α : Type} {m : List (String × α)} {u : String}
    (hc : containsKey m u = false) :
    m.countP (fun q => q.1 == u) = 0 := by
  apply List.countP_eq_zero.mpr
  intro q hq
  have := alookup_eq_none_iff.mp (containsKey_false_iff.mp hc) q hq
  simpa using this

theorem countP_filterMap_gen {α β : Type} (f : α → Option β) (p : β → Bool) :
    ∀ l : List α,
      (l.filterMap f).countP p = l.countP (fun a => ((f a).map p).getD false) := by
  intro l
  induction l with
  | nil => simp
  | cons a t ih =>
    cases hfa : f a with
    | none => simp [List.filterMap_cons, hfa, List.countP_cons, ih]
    | some b => simp [List.filterMap_cons, hfa, List.countP_cons, ih]

/-! ## C4: midnight roll -/

theorem mkDT_some {d hh mm x : Nat} (h : mkDT d hh mm = some x) :
    x = d * 1440 + hh * 60 + mm ∧ hh < 24 ∧ mm < 60 := by
  unfold mkDT at h
  split at h
  · next hcond =>
    injection h with h2
    exact ⟨h2.symm, hcond.1, hcond.2⟩
  · exact absurd h (by simp)

/-- C4: whenever the event-time construction succeeds, the end is moved
forward by exactly one day when the naive end is at or before the start, is
kept otherwise, and the emitted pair always satisfies start < end. -/
theorem c4_midnight_roll (dOrd sh sm eh em s e : Nat)
    (h : build_event_times dOrd sh sm eh em = some (s, e)) :
    (dOrd * 1440 + eh * 60 + em ≤ s →
      e = dOrd * 1440 + eh * 60 + em + 1440) ∧
    (s < dOrd * 1440 + eh * 60 + em → e = dOrd * 1440 + eh * 60 + em) ∧
    s < e := by
  cases hS : mkDT dOrd sh sm with
  | none =>
    cases hE : mkDT dOrd eh em <;>
      (unfold build_event_times at h; rw [hS, hE] at h; simp at h)
  | some s0 =>
    cases hE : mkDT dOrd eh em with
    | none => unfold build_event_times at h; rw [hS, hE] at h; simp at h
    | some e0 =>
      unfold build_event_times at h
      rw [hS, hE] at h
      simp only [Option.some.injEq, Prod.mk.injEq] at h
      obtain ⟨hs, he⟩ := h
      obtain ⟨hs0, hsh, hsm⟩ := mkDT_some hS
      obtain ⟨he0, heh, hem⟩ := mkDT_some hE
      subst hs
      split at he <;> (refine ⟨?_, ?_, ?_⟩ <;> omega)

theorem c4_midnight_roll_witness :
    (4380 ≤ 5700 → 5820 = 4380 + 1440) ∧ (5700 < 4380 → 5820 = 4380) ∧
      5700 < 5820 :=
  c4_midnight_roll 3 23 0 1 0 5700 5820 (by decide)

/-! ## C5: the time resolver -/

/-- C5: the resolver maps the case-insensitive words noon and midnight to
(12,0) and (0,0); a token without a colon parses with minutes 0; a "pm" hint
adds 12 exactly when the hour is below 12; an "am" hint resets hour 12 to 0
and nothing else; the empty (absent) hint leaves the hour unmodified; and the
two concrete examples of the specification hold. -/
theorem c5_resolve_time :
    (∀ s : String, ∀ hint : Option String, lowerStr s = "noon" →
      to_24h s hint = some (12, 0)) ∧
    (∀ s : String, ∀ hint : Option String, lowerStr s = "midnight" →
      to_24h s hint = some (0, 0)) ∧
    (∀ v : String, ∀ p : Nat × Nat, hasColon v = false →
      parseClock v = some p → p.2 = 0) ∧
    (∀ h : Nat, h < 12 → applyAmpm "pm" h = h + 12) ∧
    (∀ h : Nat, 12 ≤ h → applyAmpm "pm" h = h) ∧
    (applyAmpm "am" 12 = 0) ∧
    (∀ h : Nat, h ≠ 12 → applyAmpm "am" h = h) ∧
    (∀ h : Nat, applyAmpm "" h = h) ∧
    (normHint none = "") ∧
    (to_24h "2" (some "pm") = some (14, 0)) ∧
    (to_24h "12" (some "am") = some (0, 0)) := by
  refine ⟨?_, ?_, ?_, ?_, ?_, ?_, ?_, ?_, ?_, ?_, ?_⟩
  · intro s hint hs
    simp [to_24h, parse_time_word, hs]
  · intro s hint hs
    simp [to_24h, parse_time_word, hs]
  · intro v p hc hp
    unfold parseClock at hp
    rw [hc] at hp
    simp only [Bool.false_eq_true, if_false] at hp
    cases hn : toNatQ v with
    | none => rw [hn] at hp; simp at hp
    | some n =>
      rw [hn] at hp
      simp at hp
      rw [← hp]
  · intro h hh
    simp [applyAmpm, hh]
  · intro h hh
    have h2 : ¬ h < 12 := by omega
    simp [applyAmpm, h2]
  · decide
  · intro h hh
    simp [applyAmpm, hh]
  · intro h
    simp [applyAmpm]
  · decide
  · decide
  · decide

theorem c5_resolve_time_witness :
    to_24h "NooN" (some "x") = some (12, 0) ∧
    to_24h "Midnight" none = some (0, 0) ∧
    ((7, 0) : Nat × Nat).2 = 0 ∧
    applyAmpm "pm" 2 = 2 + 12 ∧
    applyAmpm "pm" 14 = 14 ∧
    applyAmpm "am" 3 = 3 :=
  ⟨c5_resolve_time.1 "NooN" (some "x") (by decide),
   c5_resolve_time.2.1 "Midnight" none (by decide),
   c5_resolve_time.2.2.1 "7" (7, 0) (by decide) (by decide),
   c5_resolve_time.2.2.2.1 2 (by decide),
   c5_resolve_time.2.2.2.2.1 14 (by decide),
   c5_resolve_time.2.2.2.2.2.2.1 3 (by decide)⟩

/-! ## C9: window filtering -/

/-- C9: both synthesizer date filters keep exactly the dates of the half-open
window of 7 days anchored at the reference today, and in particular a date one
day past the last in-window date (the window end) is excluded. -/
theorem c9_window_half_open :
    (∀ t d : Nat, v2_keep_date t d = true ↔ (t ≤ d ∧ d < t + 7)) ∧
    (∀ t : Nat, v2_keep_date t (t + 7) = false) ∧
    (∀ t d : Nat, feed_keep_date t d = true ↔ (t ≤ d ∧ d < t + 7)) ∧
    (∀ t : Nat, feed_keep_date t (t + 7) = false) := by
  refine ⟨?_, ?_, ?_, ?_⟩
  · intro t d; simp [v2_keep_date]; omega
  · intro t; simp [v2_keep_date]
  · intro t d; simp [feed_keep_date]; omega
  · intro t; simp [feed_keep_date]

/-! ## C6: meridiem propagation direction -/

/-- C6 counterexample: in `parse_slots` / `parse_slots_v2`, when only the end
token carries a meridiem (samp absent, eamp "p.m.", as for "2 - 6 p.m."), the
start does not inherit it: the start hint stays absent and the start resolves
to hour 2, not 14 as the claim requires. -/
theorem c6_counterexample :
    sync_meridiem_propagate none (some "p.m.") = (none, some "p.m.") ∧
    to_24h_v1 "2" (sync_meridiem_propagate none (some "p.m.")).1 = some (2, 0) ∧
    ¬ to_24h_v1 "2" (sync_meridiem_propagate none (some "p.m.")).1
        = some (14, 0) :=
  ⟨rfl, by decide, by decide⟩

/-- C6 amended: the feed (and widget) parsers capture one trailing meridiem
and apply it to both tokens, so there the start of "2 - 6 p.m." does resolve
to 14:00; the HTML parsers (`parse_slots`, `parse_slots_v2`) propagate only
from start to end, and an end-only meridiem is never applied to the start. -/
theorem c6_meridiem_propagation :
    (feed_resolve_range "2" "6" (some "p.m.") = (some (14, 0), some (18, 0))) ∧
    (∀ a : Option String, (sync_meridiem_propagate none a).1 = none) ∧
    (∀ s : String, sync_meridiem_propagate (some s) none = (some s, some s)) ∧
    (∀ s : String, sync_meridiem_propagate none (some s) = (none, some s)) := by
  refine ⟨by decide, ?_, ?_, ?_⟩
  · intro a; rfl
  · intro s; rfl
  · intro s; rfl

/-! ## C7: day resolution -/

theorem mkDate_some {y m d : Nat} {dd : Date} (h : mkDate y m d = some dd) :
    dd = ⟨y, m, d⟩ := by
  unfold mkDate at h
  split at h
  · injection h with h2; exact h2.symm
  · exact absurd h (by simp)

/-- C7 counterexample: `parse_slots` resolves the explicit date "Jan 3" with
reference today 2025-12-28 to 2025-01-03, which lies more than 7 days in the
past, and does not roll it to 2026-01-03 as the claim requires. -/
theorem c7_counterexample :
    sync_resolve_explicit ⟨2025, 12, 28⟩ "Jan" 3 = some ⟨2025, 1, 3⟩ ∧
    (Date.ord ⟨2025, 1, 3⟩) + 7 < Date.ord ⟨2025, 12, 28⟩ ∧
    ¬ sync_resolve_explicit ⟨2025, 12, 28⟩ "Jan" 3 = some ⟨2026, 1, 3⟩ :=
  ⟨by decide, by decide, by decide⟩

theorem scan_weekday_some :
    ∀ n t p r : Nat, scan_weekday n t p = some r →
      p ≤ r ∧ r < p + n ∧ weekdayOfOrd r = t ∧
        ∀ q, p ≤ q → q < r → weekdayOfOrd q ≠ t := by
  intro n
  induction n with
  | zero => intro t p r h; simp [scan_weekday] at h
  | succ n ih =>
    intro t p r h
    unfold scan_weekday at h
    by_cases hw : weekdayOfOrd p = t
    · rw [if_pos hw] at h
      injection h with h2
      subst h2
      refine ⟨Nat.le_refl _, by omega, hw, ?_⟩
      intro q h1 h2
      omega
    · rw [if_neg hw] at h
      obtain ⟨ha, hb, hc, hd⟩ := ih t (p + 1) r h
      refine ⟨by omega, by omega, hc, ?_⟩
      intro q h1 h2
      by_cases hq : q = p
      · rw [hq]; exact hw
      · exact hd q (by omega) h2

theorem scan_weekday_finds :
    ∀ n t p : Nat, (∃ k, k < n ∧ weekdayOfOrd (p + k) = t) →
      (scan_weekday n t p).isSome = true := by
  intro n
  induction n with
  | zero =>
    intro t p h
    obtain ⟨k, hk, _⟩ := h
    omega
  | succ n ih =>
    intro t p h
    obtain ⟨k, hk, hw⟩ := h
    unfold scan_weekday
    by_cases hp : weekdayOfOrd p = t
    · rw [if_pos hp]; rfl
    · rw [if_neg hp]
      apply ih
      have hk0 : k ≠ 0 := by
        intro h0
        rw [h0] at hw
        simp at hw
        exact hp hw
      refine ⟨k - 1, by omega, ?_⟩
      have he : p + 1 + (k - 1) = p + k := by omega
      rw [he]
      exact hw

theorem resolve_weekday_total (t o : Nat) (ht : t < 7) :
    (resolve_weekday o t).isSome = true := by
  apply scan_weekday_finds
  refine ⟨(t + 7 - (o + 6) % 7) % 7, Nat.mod_lt _ (by omega), ?_⟩
  unfold weekdayOfOrd
  omega

/-- C7 amended: the feed/widget resolvers build the explicit date in the
reference year and roll to the next year exactly when it lies more than 7 days
in the past; the `parse_slots` explicit path always keeps the reference year
(no roll); the weekday scan returns the nearest ordinal on/after today (at
most 6 days ahead) whose weekday matches and always succeeds for a valid
weekday; and a line with neither an explicit date nor a weekday gets no date
and is discarded. -/
theorem c7_day_resolution :
    (∀ today : Date, ∀ mon day : Nat, ∀ d : Date,
      mkDate today.year mon day = some d → d.ord + 7 < today.ord →
      feed_resolve_date today mon day = mkDate (today.year + 1) mon day) ∧
    (∀ today : Date, ∀ mon day : Nat, ∀ d : Date,
      mkDate today.year mon day = some d → ¬ d.ord + 7 < today.ord →
      feed_resolve_date today mon day = some d) ∧
    (∀ today : Date, ∀ mon : String, ∀ day : Nat, ∀ d : Date,
      sync_resolve_explicit today mon day = some d → d.year = today.year) ∧
    (∀ t o r : Nat, resolve_weekday o t = some r →
      o ≤ r ∧ r ≤ o + 6 ∧ weekdayOfOrd r = t ∧
        ∀ q, o ≤ q → q < r → weekdayOfOrd q ≠ t) ∧
    (∀ t o : Nat, t < 7 → (resolve_weekday o t).isSome = true) ∧
    (∀ today : Date, sync_line_date none none none today = none) := by
  refine ⟨?_, ?_, ?_, ?_, ?_, ?_⟩
  · intro today mon day d h1 h2
    unfold feed_resolve_date
    rw [h1]
    exact if_pos h2
  · intro today mon day d h1 h2
    unfold feed_resolve_date
    rw [h1]
    exact if_neg h2
  · intro today mon day d h
    unfold sync_resolve_explicit at h
    by_cases hd : isDigitStr mon = true
    · rw [if_pos hd] at h
      rw [mkDate_some h]
    · rw [if_neg hd] at h
      cases hm : monthAbbrToInt mon with
      | none => rw [hm] at h; simp at h
      | some mi =>
        rw [hm] at h
        simp only at h
        rw [mkDate_some h]
  · intro t o r h
    obtain ⟨ha, hb, hc, hd⟩ := scan_weekday_some 7 t o r h
    exact ⟨ha, by omega, hc, hd⟩
  · intro t o ht
    exact resolve_weekday_total t o ht
  · intro today; rfl

theorem c7_day_resolution_witness :
    feed_resolve_date ⟨2025, 12, 28⟩ 1 3 = mkDate 2026 1 3 ∧
    feed_resolve_date ⟨2025, 10, 10⟩ 10 12 = some ⟨2025, 10, 12⟩ ∧
    Date.year ⟨2025, 1, 3⟩ = Date.year ⟨2025, 12, 28⟩ ∧
    weekdayOfOrd 1 = 0 ∧
    (resolve_weekday 5 3).isSome = true :=
  ⟨c7_day_resolution.1 ⟨2025, 12, 28⟩ 1 3 ⟨2025, 1, 3⟩ (by decide) (by decide),
   c7_day_resolution.2.1 ⟨2025, 10, 10⟩ 10 12 ⟨2025, 10, 12⟩ (by decide)
     (by decide),
   c7_day_resolution.2.2.1 ⟨2025, 12, 28⟩ "Jan" 3 ⟨2025, 1, 3⟩ (by decide),
   (c7_day_resolution.2.2.2.1 0 1 1 (by decide)).2.2.1,
   c7_day_resolution.2.2.2.2.1 3 5 (by decide)⟩

/-! ## C3: the uid digest -/

/-- C3 counterexample: the four fields are joined with an unescaped `|`
before hashing, so two Events whose (location, title) pairs differ - the
location changed from "A" to "A|B" and the title from "B|C" to "C" - produce
the identical uid, refuting that any change to the fields changes the uid. -/
theorem c3_counterexample :
    uid_of "S" "E" "A|B" "C" = uid_of "S" "E" "A" "B|C" ∧
    ¬ (("A|B" : String) = "A" ∧ ("C" : String) = "B|C") := by
  constructor
  · show uid_from_src (mk_uid_src "S" "E" "A|B" "C")
        = uid_from_src (mk_uid_src "S" "E" "A" "B|C")
    have h : mk_uid_src "S" "E" "A|B" "C" = mk_uid_src "S" "E" "A" "B|C" := by
      decide
    rw [h]
  · decide

theorem sha1HexChars_length (msg : List Nat) : (sha1HexChars msg).length = 40 := by
  unfold sha1HexChars
  simp [hex8]

/-- C3 amended: the uid is a pure function of the ordered tuple (start ISO,
end ISO, location, title) - identical tuples always give the identical uid -
and it is a fixed-length digest of 16 hex characters; but distinct tuples can
collide (see the counterexample), so a change to the fields need not change
the uid. -/
theorem c3_uid_shape :
    (∀ s e l t : String, (uid_of s e l t).length = 16) ∧
    (∀ s1 e1 l1 t1 s2 e2 l2 t2 : String, s1 = s2 → e1 = e2 → l1 = l2 →
      t1 = t2 → uid_of s1 e1 l1 t1 = uid_of s2 e2 l2 t2) := by
  constructor
  · intro s e l t
    unfold uid_of uid_from_src
    show ((sha1HexChars (strBytes (mk_uid_src s e l t))).take 16).length = 16
    rw [List.length_take, sha1HexChars_length]
    decide
  · intro s1 e1 l1 t1 s2 e2 l2 t2 h1 h2 h3 h4
    rw [h1, h2, h3, h4]

theorem c3_uid_shape_witness :
    (uid_of "a" "b" "c" "d").length = 16 ∧
    uid_of "a" "b" "c" "d" = uid_of "a" "b" "c" "d" :=
  ⟨c3_uid_shape.1 "a" "b" "c" "d",
   c3_uid_shape.2 "a" "b" "c" "d" "a" "b" "c" "d" rfl rfl rfl rfl⟩

/-! ## C1 and C2: the reconciliation engine -/

theorem bodyUid_to_gcal (s : Slot) : bodyUid (to_gcal s) = some s.uid := rfl

theorem event_id_inj {events : List GEvent}
    (hids : (events.map GEvent.id).Nodup) {a b : GEvent} (ha : a ∈ events)
    (hb : b ∈ events) (hid : a.id = b.id) : a = b :=
  List.inj_on_of_nodup_map hids ha hb hid

theorem sync_ops_insert_count (events : List GEvent) (slots : List Slot)
    {u : String} (hD : containsKey (desiredByUid slots) u = true)
    (hE : containsKey (existingByUid events) u = false) :
    (sync_ops events slots).countP (isInsertForUid u) = 1 := by
  have hEnone : alookup u (existingByUid events) = none :=
    containsKey_false_iff.mp hE
  unfold sync_ops
  rw [List.countP_append, List.countP_map]
  have hdel : ((existingByUid events).filterMap (fun q =>
      match alookup q.1 (desiredByUid slots) with
      | some _ => none
      | none => some (Op.delete q.2.id))).countP (isInsertForUid u) = 0 := by
    apply List.countP_eq_zero.mpr
    intro op hop
    rcases List.mem_filterMap.mp hop with ⟨q, hq, hg⟩
    cases halk : alookup q.1 (desiredByUid slots) with
    | some s => rw [halk] at hg; simp at hg
    | none =>
      rw [halk] at hg
      simp only [Option.some.injEq] at hg
      rw [← hg]
      simp [isInsertForUid]
  rw [hdel]
  have hmain : (desiredByUid slots).countP
      ((isInsertForUid u) ∘ (fun p =>
        match alookup p.1 (existingByUid events) with
        | some ev => Op.update ev.id (to_gcal p.2)
        | none => Op.insert (to_gcal p.2)))
      = (desiredByUid slots).countP (fun q => q.1 == u) := by
    apply List.countP_congr
    intro q hq
    have hq2 : q.2.uid = q.1 := desiredByUid_prop slots q hq
    simp only [Function.comp]
    cases halk : alookup q.1 (existingByUid events) with
    | some ev2 =>
      have hne : q.1 ≠ u := by
        intro hqu
        rw [hqu, hEnone] at halk
        simp at halk
      simp [isInsertForUid, hne]
    | none => simp [isInsertForUid, bodyUid_to_gcal, hq2]
  rw [hmain, countP_key_one (desiredByUid_nodup slots) hD]

theorem sync_ops_update_count (events : List GEvent) (slots : List Slot)
    {u : String} {ev : GEvent}
    (hD : containsKey (desiredByUid slots) u = true)
    (hEv : alookup u (existingByUid events) = some ev) :
    (sync_ops events slots).countP (isUpdateAt u ev.id) = 1 := by
  unfold sync_ops
  rw [List.countP_append, List.countP_map]
  have hdel : ((existingByUid events).filterMap (fun q =>
      match alookup q.1 (desiredByUid slots) with
      | some _ => none
      | none => some (Op.delete q.2.id))).countP (isUpdateAt u ev.id) = 0 := by
    apply List.countP_eq_zero.mpr
    intro op hop
    rcases List.mem_filterMap.mp hop with ⟨q, hq, hg⟩
    cases halk : alookup q.1 (desiredByUid slots) with
    | some s => rw [halk] at hg; simp at hg
    | none =>
      rw [halk] at hg
      simp only [Option.some.injEq] at hg
      rw [← hg]
      simp [isUpdateAt]
  rw [hdel]
  have hmain : (desiredByUid slots).countP
      ((isUpdateAt u ev.id) ∘ (fun p =>
        match alookup p.1 (existingByUid events) with
        | some ev => Op.update ev.id (to_gcal p.2)
        | none => Op.insert (to_gcal p.2)))
      = (desiredByUid slots).countP (fun q => q.1 == u) := by
    apply List.countP_congr
    intro q hq
    have hq2 : q.2.uid = q.1 := desiredByUid_prop slots q hq
    simp only [Function.comp]
    cases halk : alookup q.1 (existingByUid events) with
    | none =>
      have hne : q.1 ≠ u := by
        intro hqu
        rw [hqu, hEv] at halk
        simp at halk
      simp [isUpdateAt, hne]
    | some ev2 =>
      by_cases hqu : q.1 = u
      · have hev2 : ev2 = ev := by
          rw [hqu] at halk
          rw [halk] at hEv
          exact Option.some.inj hEv
        subst hev2
        simp [isUpdateAt, bodyUid_to_gcal, hq2, hqu]
      · simp [isUpdateAt, bodyUid_to_gcal, hq2, hqu]
  rw [hmain, countP_key_one (desiredByUid_nodup slots) hD]

theorem sync_ops_delete_count (events : List GEvent) (slots : List Slot)
    {u : String} {ev : GEvent} (hids : (events.map GEvent.id).Nodup)
    (hEv : alookup u (existingByUid events) = some ev)
    (hD : containsKey (desiredByUid slots) u = false) :
    (sync_ops events slots).countP (isDeleteAt ev.id) = 1 := by
  have hDnone : alookup u (desiredByUid slots) = none :=
    containsKey_false_iff.mp hD
  have hEm : (u, ev) ∈ existingByUid events := alookup_mem hEv
  obtain ⟨hevsrc, hevuid, hevmem⟩ := existingByUid_prop events (u, ev) hEm
  unfold sync_ops
  rw [List.countP_append]
  have hup : ((desiredByUid slots).map (fun p =>
      match alookup p.1 (existingByUid events) with
      | some ev => Op.update ev.id (to_gcal p.2)
      | none => Op.insert (to_gcal p.2))).countP (isDeleteAt ev.id) = 0 := by
    apply List.countP_eq_zero.mpr
    intro op hop
    rcases List.mem_map.mp hop with ⟨q, hq, hf⟩
    cases halk : alookup q.1 (existingByUid events) with
    | some ev2 => rw [halk] at hf; rw [← hf]; simp [isDeleteAt]
    | none => rw [halk] at hf; rw [← hf]; simp [isDeleteAt]
  rw [hup]
  rw [countP_filterMap_gen]
  have hmain : (existingByUid events).countP (fun q =>
      (((match alookup q.1 (desiredByUid slots) with
         | some _ => none
         | none => some (Op.delete q.2.id)) : Option Op).map
        (isDeleteAt ev.id)).getD false)
      = (existingByUid events).countP (fun q => q.1 == u) := by
    apply List.countP_congr
    intro q hq
    obtain ⟨hqsrc, hquid, hqmem⟩ := existingByUid_prop events q hq
    cases halk : alookup q.1 (desiredByUid slots) with
    | some s =>
      have hne : q.1 ≠ u := by
        intro hqu
        rw [hqu, hDnone] at halk
        simp at halk
      simp [hne]
    | none =>
      by_cases hqu : q.1 = u
      · have hlook : alookup u (existingByUid events) = some q.2 := by
          apply alookup_of_mem_nodup (existingByUid_nodup events)
          rw [← hqu]
          exact hq
        have hqev : q.2 = ev := by
          rw [hlook] at hEv
          exact Option.some.inj hEv
        simp [isDeleteAt, hqev, hqu]
      · have hne2 : q.2.id ≠ ev.id := by
          intro hid
          have hqe : q.2 = ev := event_id_inj hids hqmem hevmem hid
          rw [hqe] at hquid
          rw [hevuid] at hquid
          exact hqu (Option.some.inj hquid).symm
        simp [isDeleteAt, hne2, hqu]
  rw [hmain, countP_key_one (existingByUid_nodup events)
    (containsKey_true_iff.mpr ⟨ev, hEv⟩)]

/-- C1: for every reconciliation run (with distinct backend ids in the
listing), each desired uid absent from the managed existing mapping yields
exactly one insert carrying that uid; each desired uid present in the managed
existing mapping yields exactly one update addressed at the existing entry's
backend id; each managed existing uid absent from the desired mapping yields
exactly one delete addressed at its backend id; and the concrete 3-desired
versus 2-existing scenario sharing one uid yields exactly 2 inserts, 1 update
and 1 delete. -/
theorem c1_reconcile_ops (events : List GEvent) (slots : List Slot)
    (hids : (events.map GEvent.id).Nodup) :
    (∀ u : String, containsKey (desiredByUid slots) u = true →
      containsKey (existingByUid events) u = false →
      (sync_ops events slots).countP (isInsertForUid u) = 1) ∧
    (∀ u : String, ∀ ev : GEvent,
      containsKey (desiredByUid slots) u = true →
      alookup u (existingByUid events) = some ev →
      (sync_ops events slots).countP (isUpdateAt u ev.id) = 1) ∧
    (∀ u : String, ∀ ev : GEvent,
      alookup u (existingByUid events) = some ev →
      containsKey (desiredByUid slots) u = false →
      (sync_ops events slots).countP (isDeleteAt ev.id) = 1) ∧
    ((sync_ops scenarioEvents scenarioSlots).countP isInsertOp = 2 ∧
     (sync_ops scenarioEvents scenarioSlots).countP isUpdateOp = 1 ∧
     (sync_ops scenarioEvents scenarioSlots).countP isDeleteOp = 1) :=
  ⟨fun _ hD hE => sync_ops_insert_count events slots hD hE,
   fun _ _ hD hEv => sync_ops_update_count events slots hD hEv,
   fun _ _ hEv hD => sync_ops_delete_count events slots hids hEv hD,
   by decide, by decide, by decide⟩

theorem c1_reconcile_ops_witness :
    (sync_ops scenarioEvents scenarioSlots).countP (isInsertForUid "c") = 1 ∧
    (sync_ops scenarioEvents scenarioSlots).countP
      (isUpdateAt "a" "id1") = 1 ∧
    (sync_ops scenarioEvents scenarioSlots).countP (isDeleteAt "id2") = 1 ∧
    (sync_ops scenarioEvents scenarioSlots).countP isInsertOp = 2 :=
  ⟨(c1_reconcile_ops scenarioEvents scenarioSlots (by decide)).1 "c"
      (by decide) (by decide),
   (c1_reconcile_ops scenarioEvents scenarioSlots (by decide)).2.1 "a"
      (exManaged "id1" "a") (by decide) (by decide),
   (c1_reconcile_ops scenarioEvents scenarioSlots (by decide)).2.2.1 "b"
      (exManaged "id2" "b") (by decide) (by decide),
   (c1_reconcile_ops scenarioEvents scenarioSlots (by decide)).2.2.2.1⟩

theorem managedEntry_isManaged {events : List GEvent} {p : String × GEvent}
    (h : managedEntry events p) : isManaged p.2 := by
  obtain ⟨h1, h2, _⟩ := h
  exact ⟨h1, by rw [h2]; rfl⟩

/-- C2: an entry of the listing whose private annotation does not carry both
the source tag and a `recwell_uid` key is never the target of an update or a
delete (given distinct backend ids in the listing): only managed entries are
candidates. -/
theorem c2_unmanaged_untouched (events : List GEvent) (slots : List Slot)
    (e0 : GEvent) (hmem : e0 ∈ events) (hno : ¬ isManaged e0)
    (hids : (events.map GEvent.id).Nodup) :
    (sync_ops events slots).any (targetsId e0.id) = false := by
  rw [List.any_eq_false]
  intro op hop
  unfold sync_ops at hop
  rcases List.mem_append.mp hop with hop | hop
  · rcases List.mem_map.mp hop with ⟨q, hq, hf⟩
    cases halk : alookup q.1 (existingByUid events) with
    | none =>
      rw [halk] at hf
      rw [← hf]
      simp [targetsId]
    | some ev2 =>
      rw [halk] at hf
      rw [← hf]
      have hman := existingByUid_prop events (q.1, ev2) (alookup_mem halk)
      obtain ⟨h1, h2, h3⟩ := hman
      have hne : ev2.id ≠ e0.id := by
        intro hid
        have : ev2 = e0 := event_id_inj hids h3 hmem hid
        apply hno
        rw [← this]
        exact managedEntry_isManaged ⟨h1, h2, h3⟩
      simp [targetsId, hne]
  · rcases List.mem_filterMap.mp hop with ⟨q, hq, hg⟩
    cases halk : alookup q.1 (desiredByUid slots) with
    | some s => rw [halk] at hg; simp at hg
    | none =>
      rw [halk] at hg
      simp only [Option.some.injEq] at hg
      rw [← hg]
      have hman := existingByUid_prop events q hq
      obtain ⟨h1, h2, h3⟩ := hman
      have hne : q.2.id ≠ e0.id := by
        intro hid
        have : q.2 = e0 := event_id_inj hids h3 hmem hid
        apply hno
        rw [← this]
        exact managedEntry_isManaged ⟨h1, h2, h3⟩
      simp [targetsId, hne]

theorem c2_unmanaged_untouched_witness :
    strayEvent ∈ c2Events ∧ ¬ isManaged strayEvent ∧
    (sync_ops c2Events scenarioSlots).any (targetsId strayEvent.id) = false :=
  ⟨by decide, by decide,
   c2_unmanaged_untouched c2Events scenarioSlots strayEvent (by decide)
     (by decide) (by decide)⟩

/-! ## C8: the mis-escaped time-range pattern of `parse_slots_v2` -/

theorem lang_mustContain {r : RE} {w : List Char} (hl : Lang r w) :
    ∀ c : Char, mustContain c r = true → c ∈ w := by
  induction hl with
  | eps => intro c hc; simp [mustContain] at hc
  | cls hmem =>
    intro c hc
    simp only [mustContain, List.all_eq_true] at hc
    have h2 := hc _ hmem
    exact List.mem_singleton.mpr (eq_of_beq h2).symm
  | dot => intro c hc; simp [mustContain] at hc
  | catm ha hb iha ihb =>
    intro c hc
    simp only [mustContain, Bool.or_eq_true] at hc
    rcases hc with hc | hc
    · exact List.mem_append_left _ (iha c hc)
    · exact List.mem_append_right _ (ihb c hc)
  | altl ha iha =>
    intro c hc
    simp only [mustContain, Bool.and_eq_true] at hc
    exact iha c hc.1
  | altr hb ihb =>
    intro c hc
    simp only [mustContain, Bool.and_eq_true] at hc
    exact ihb c hc.2
  | starNil => intro c hc; simp [mustContain] at hc
  | starCons ha hs iha ihs => intro c hc; simp [mustContain] at hc

theorem search_contains {r : RE} {c : Char} (hmc : mustContain c r = true)
    {w : List Char} (hs : SearchMatches r w) : c ∈ w := by
  obtain ⟨p, m, q, heq, hl⟩ := hs
  have hm := lang_mustContain hl c hmc
  subst heq
  simp only [List.mem_append]
  exact Or.inl (Or.inr hm)

/-- C8: every word matched by the `time_pat` of `parse_slots_v2` must contain
a literal backslash (its `\\s*` pieces denote a mandatory backslash), so a
line without a backslash - in particular "2:30 - 6:00 p.m." - never matches:
`re.search` fails and the line produces no event, contrary to the claim and to
the function's own docstring. -/
theorem c8_v2_regex_never_matches :
    (∀ w : List Char, '\\' ∉ w → ¬ SearchMatches v2_time_pat w) ∧
    ¬ SearchMatches v2_time_pat ("2:30 - 6:00 p.m.".data) := by
  have hmc : mustContain '\\' v2_time_pat = true := by decide
  constructor
  · intro w hw hs
    exact hw (search_contains hmc hs)
  · intro hs
    have hnb : '\\' ∉ ("2:30 - 6:00 p.m.".data) := by decide
    exact hnb (search_contains hmc hs)

theorem c8_v2_regex_never_matches_witness :
    ¬ SearchMatches v2_time_pat ("Noon - 4 p.m.".data) :=
  c8_v2_regex_never_matches.1 _ (by decide)

/-! ## C10: exception routing in `gather_slots_from_site` -/

theorem foldl_fetch_errors (fetch : String → Except String String)
    (pV : String → List Slot) :
    ∀ us : List String, ∀ acc : List Slot,
      (∀ u2 ∈ us, ∃ e3, fetch u2 = Except.error e3) →
      us.foldl (fun acc url =>
        match fetch url with
        | Except.ok h => acc ++ pV h
        | Except.error _ => acc) acc = acc := by
  intro us
  induction us with
  | nil => intro acc _; rfl
  | cons u t ih =>
    intro acc h
    obtain ⟨e3, he⟩ := h u (List.mem_cons_self _ _)
    simp only [List.foldl_cons, he]
    exact ih acc (fun u2 hu => h u2 (List.mem_cons_of_mem _ hu))

/-- C10: when fetching the primary page succeeds, `gather_slots_from_site`
always returns successfully; if additionally the widget fetch and every
related-page fetch raise, the exceptions are suppressed and the result is
exactly the primary parse, de-duplicated by uid in first-seen order.  When the
primary fetch itself raises, the error propagates. -/
theorem c10_gather_routing (fetch : String → Except String String)
    (pV pW : String → List Slot) (disc : String → String → List String)
    (url html : String) :
    (fetch url = Except.ok html →
      (∃ l, gather_slots_from_site fetch pV pW disc url = Except.ok l) ∧
      ((∃ e2, fetch WIDGET_URL = Except.error e2) →
        (∀ u2 ∈ disc url html, ∃ e3, fetch u2 = Except.error e3) →
        gather_slots_from_site fetch pV pW disc url
          = Except.ok (gather_dedupe (pV html)))) ∧
    (∀ e : String, fetch url = Except.error e →
      gather_slots_from_site fetch pV pW disc url = Except.error e) := by
  constructor
  · intro hok
    constructor
    · unfold gather_slots_from_site
      rw [hok]
      exact ⟨_, rfl⟩
    · intro hwid hrel
      obtain ⟨e2, hw⟩ := hwid
      unfold gather_slots_from_site
      rw [hok, hw]
      show Except.ok (gather_dedupe ((disc url html).foldl (fun acc url =>
        match fetch url with
        | Except.ok h => acc ++ pV h
        | Except.error _ => acc) (pV html))) = Except.ok (gather_dedupe (pV html))
      rw [foldl_fetch_errors fetch pV (disc url html) (pV html) hrel]
  · intro e he
    unfold gather_slots_from_site
    rw [he]

theorem c10_gather_routing_witness :
    gather_slots_from_site c10fetch c10parse c10parseW c10disc "primary"
      = Except.ok (gather_dedupe (c10parse "HTML")) ∧
    gather_slots_from_site c10fetch c10parse c10parseW c10disc "other"
      = Except.error "down" :=
  ⟨((c10_gather_routing c10fetch c10parse c10parseW c10disc "primary"
      "HTML").1 rfl).2 ⟨"down", rfl⟩
      (by
        intro u2 hu
        refine ⟨"down", ?_⟩
        simp only [c10disc, List.mem_cons, List.mem_singleton,
          List.not_mem_nil, or_false] at hu
        rcases hu with h | h <;> (subst h; rfl)),
   (c10_gather_routing c10fetch c10parse c10parseW c10disc "other" "HTML").2
     "down" rfl⟩

theorem c6_meridiem_propagation_witness :
    sync_meridiem_propagate (some "am") none = (some "am", some "am") :=
  c6_meridiem_propagation.2.2.1 "am"

theorem c9_window_half_open_witness :
    v2_keep_date 100 107 = false ∧ feed_keep_date 100 107 = false :=
  ⟨c9_window_half_open.2.1 100, c9_window_half_open.2.2.2 100⟩
